import Mathlib

/-!
Verification of the hospital-distribution program
(`Matriz_casa_hospital/profundisacion.py`, with `profundizacion.py` an
algorithmically identical copy of the same core).

Shallow embedding notes:
* Python integers are `Int`; Manhattan distances are `Nat`.
* `float('inf')`, which appears as the initial accumulator of the inner
  minimum in `_calculate_score`, is embedded as `none : Option Nat`
  (`some n` is the finite integer `n`); `infMin`, `infAdd`, `infLt`,
  `infLe` are the corresponding arithmetic and comparisons.
* The Python `set` of coordinates is embedded as a `List Coordinate`
  whose order stands for one admissible (unspecified) iteration order;
  claims are proved for every order.  In every reachable state the
  stored coordinates are pairwise distinct (each placement requires the
  target grid cell to be empty), so value-based removal coincides with
  CPython's identity-based `set.remove` on the objects the program
  actually passes, which are always members.
* The mutable grid `self.grid` is embedded as a total function
  `Int → Int → Nat` updated pointwise (`setCell`); all reachable
  accesses are bounds-checked by the source before indexing.
* The tentative simulate/revert sequence in `optimize_distribution`
  (remove, test, score, revert) restores the incoming state exactly, so
  it is embedded by scoring the hypothetical model
  `hospitalAdded (hospitalRemoved m old) new` and continuing with the
  unchanged model `m`.
* `random.randint` has no counterpart: `initialize_random_positions`
  consumes an explicit list of sampled cells and returns `none` when the
  list is exhausted before the requested counts are reached (the Python
  loop would keep sampling; theorems quantify over every sample list).
-/

/-- `Coordinate` (class `Coordinate`): a pair of integers.  Equality of
this Lean structure is by value; the Python class defines no `__eq__`,
see `PyCoordinate` below for the identity-based semantics. -/
structure Coordinate where
  x : Int
  y : Int
deriving DecidableEq

/-- `Coordinate.distance_to`: Manhattan distance `abs(Δx) + abs(Δy)`. -/
def Coordinate.distance_to (a b : Coordinate) : Nat :=
  (a.x - b.x).natAbs + (a.y - b.y).natAbs

/-- The state of a `HospitalDistribution` object. -/
structure Model where
  rows : Int
  cols : Int
  num_hospitals : Int
  num_houses : Int
  grid : Int → Int → Nat
  hospitals : List Coordinate
  houses : List Coordinate
  MIN_HOSPITAL_DISTANCE : Nat
  MAX_HOUSE_HOSPITAL_DISTANCE : Nat

/-- `HospitalDistribution.__init__`: empty grid (all cells 0), empty
hospital and house sets, constants 3 and 5. -/
def mkModel (rows cols num_hospitals num_houses : Int) : Model where
  rows := rows
  cols := cols
  num_hospitals := num_hospitals
  num_houses := num_houses
  grid := fun _ _ => 0
  hospitals := []
  houses := []
  MIN_HOSPITAL_DISTANCE := 3
  MAX_HOUSE_HOSPITAL_DISTANCE := 5

/-- Pointwise update `self.grid[c.x][c.y] = v`. -/
def setCell (g : Int → Int → Nat) (c : Coordinate) (v : Nat) : Int → Int → Nat :=
  fun x y => if x = c.x ∧ y = c.y then v else g x y

/-- `self.hospitals.remove(pos)` on the value level: removes the first
(in reachable states, the unique) occurrence. -/
def removeCoord : List Coordinate → Coordinate → List Coordinate
  | [], _ => []
  | h :: t, c => if h = c then t else h :: removeCoord t c

/-- `self.hospitals.remove(pos); self.grid[pos.x][pos.y] = 0`. -/
def hospitalRemoved (m : Model) (c : Coordinate) : Model :=
  { m with hospitals := removeCoord m.hospitals c, grid := setCell m.grid c 0 }

/-- `self.hospitals.add(pos); self.grid[pos.x][pos.y] = 2`. -/
def hospitalAdded (m : Model) (c : Coordinate) : Model :=
  { m with hospitals := c :: m.hospitals, grid := setCell m.grid c 2 }

/-- `self.houses.add(pos); self.grid[pos.x][pos.y] = 1`. -/
def houseAdded (m : Model) (c : Coordinate) : Model :=
  { m with houses := c :: m.houses, grid := setCell m.grid c 1 }

/-- `HospitalDistribution._is_valid_hospital_position`: the cell must be
empty and the position at Manhattan distance at least
`MIN_HOSPITAL_DISTANCE` from every current hospital. -/
def is_valid_hospital_position (m : Model) (pos : Coordinate) : Bool :=
  if m.grid pos.x pos.y ≠ 0 then false
  else m.hospitals.all fun hosp =>
    ! decide (pos.distance_to hosp < m.MIN_HOSPITAL_DISTANCE)

/-- `min(a, b)` where `none` stands for `float('inf')`. -/
def infMin : Option Nat → Option Nat → Option Nat
  | none, b => b
  | some a, none => some a
  | some a, some b => some (min a b)

/-- Addition where `none` stands for `float('inf')`. -/
def infAdd : Option Nat → Option Nat → Option Nat
  | some a, some b => some (a + b)
  | _, _ => none

/-- Strict comparison where `none` stands for `float('inf')`. -/
def infLt : Option Nat → Option Nat → Bool
  | some a, some b => decide (a < b)
  | some _, none => true
  | none, _ => false

/-- Non-strict comparison where `none` stands for `float('inf')`. -/
def infLe : Option Nat → Option Nat → Bool
  | some a, some b => decide (a ≤ b)
  | _, none => true
  | none, some _ => false

/-- The inner loop of `_calculate_score`: `min_distance` starts at
`float('inf')` and is folded with `min` over all hospitals. -/
def min_distance (house : Coordinate) (hospitals : List Coordinate) : Option Nat :=
  hospitals.foldl (fun acc hosp => infMin acc (some (house.distance_to hosp))) none

/-- `HospitalDistribution._calculate_score`: sum over all houses of the
minimum Manhattan distance to any hospital. -/
def calculate_score (m : Model) : Option Nat :=
  m.houses.foldl (fun acc house => infAdd acc (min_distance house m.hospitals)) (some 0)

/-- The neighbourhood offsets, in the exact order of the nested Python
loops `for dx in [-1, 0, 1]: for dy in [-1, 0, 1]`. -/
def offsets : List (Int × Int) :=
  [(-1, -1), (-1, 0), (-1, 1), (0, -1), (0, 0), (0, 1), (1, -1), (1, 0), (1, 1)]

/-- Committing a relocation: `hospitals.remove(old)`, clear its cell,
`hospitals.add(new)`, mark its cell (lines 110-113 and the tentative
placement share this operation). -/
def commitMove (m : Model) (old new : Coordinate) : Model :=
  hospitalAdded (hospitalRemoved m old) new

/-- One candidate direction of the neighbourhood search: bounds check,
tentative removal of `old`, validity check, tentative placement and full
rescoring, update of `(best_score, best_new_pos, improved)`.  The revert
of the tentative mutation restores the incoming model exactly, so the
accumulator is the only carried state. -/
def tryOffset (m : Model) (old : Coordinate)
    (acc : Option Nat × Option Coordinate × Bool) (d : Int × Int) :
    Option Nat × Option Coordinate × Bool :=
  let new_x := old.x + d.1
  let new_y := old.y + d.2
  if 0 ≤ new_x ∧ new_x < m.rows ∧ 0 ≤ new_y ∧ new_y < m.cols then
    let new_pos : Coordinate := ⟨new_x, new_y⟩
    if is_valid_hospital_position (hospitalRemoved m old) new_pos then
      let new_score := calculate_score (hospitalAdded (hospitalRemoved m old) new_pos)
      if infLt new_score acc.1 then (new_score, some new_pos, true) else acc
    else acc
  else acc

/-- The body of `for hospital in list(self.hospitals)`: scan the nine
candidate directions for `old`, then commit the recorded best move, if
any (`if best_new_pos:`; a `Coordinate` object is always truthy, so this
is a `None` test). -/
def scanHospital (m : Model) (old : Coordinate) (bs : Option Nat) (imp : Bool) :
    Model × Option Nat × Bool :=
  let acc := offsets.foldl (tryOffset m old) (bs, none, imp)
  match acc.2.1 with
  | some p => (commitMove m old p, acc.1, acc.2.2)
  | none => (m, acc.1, acc.2.2)

/-- One sweep of the `while improved` loop: `improved = False`, then
every hospital of the snapshot `list(self.hospitals)` is scanned while
the model evolves under committed moves. -/
def sweep (m : Model) (bs : Option Nat) : Model × Option Nat × Bool :=
  m.hospitals.foldl (fun st h => scanHospital st.1 h st.2.1 st.2.2) (m, bs, false)

/-- The `while improved` loop of `optimize_distribution`, indexed by a
fuel bound on the number of sweeps (the loop is proved to need at most
`scoreFuel` sweeps, see `optimizer_terminates`). -/
def optimizeAux : Nat → Model → Option Nat → Model
  | 0, m, _ => m
  | Nat.succ n, m, bs =>
    let r := sweep m bs
    if r.2.2 then optimizeAux n r.1 r.2.1 else r.1

/-- `HospitalDistribution.optimize_distribution`:
`best_score = self._calculate_score()`, then sweep while improved. -/
def optimize_distribution (m : Model) (fuel : Nat) : Model :=
  optimizeAux fuel m (calculate_score m)

/-- Finite part of an extended score. -/
def toFuel : Option Nat → Nat
  | some n => n
  | none => 0

/-- Enough sweeps for `optimize_distribution` to reach its fixpoint. -/
def scoreFuel (m : Model) : Nat := toFuel (calculate_score m) + 1

/-- One sampled attempt of the hospital placement loop (lines 36-43):
place the hospital iff `_is_valid_hospital_position` accepts the cell. -/
def try_place_hospital (m : Model) (s : Int × Int) : Model :=
  let new_pos : Coordinate := ⟨s.1, s.2⟩
  if is_valid_hospital_position m new_pos then hospitalAdded m new_pos else m

/-- `while len(self.hospitals) < self.num_hospitals`: consume sampled
cells until the count is reached; `none` when the samples run out while
the loop would keep running. -/
def place_hospitals : Model → List (Int × Int) → Option Model
  | m, [] =>
    if (m.hospitals.length : Int) < m.num_hospitals then none else some m
  | m, s :: rest =>
    if (m.hospitals.length : Int) < m.num_hospitals then
      place_hospitals (try_place_hospital m s) rest
    else some m

/-- One sampled attempt of the house placement loop (lines 46-53):
place the house iff the cell is empty. -/
def try_place_house (m : Model) (s : Int × Int) : Model :=
  let new_pos : Coordinate := ⟨s.1, s.2⟩
  if m.grid s.1 s.2 = 0 then houseAdded m new_pos else m

/-- `while len(self.houses) < self.num_houses`. -/
def place_houses : Model → List (Int × Int) → Option Model
  | m, [] =>
    if (m.houses.length : Int) < m.num_houses then none else some m
  | m, s :: rest =>
    if (m.houses.length : Int) < m.num_houses then
      place_houses (try_place_house m s) rest
    else some m

/-- `HospitalDistribution.initialize_random_positions`: hospitals first,
then houses, over explicit sample lists. -/
def initialize_random_positions (m : Model)
    (hospSamples houseSamples : List (Int × Int)) : Option Model :=
  match place_hospitals m hospSamples with
  | none => none
  | some m1 => place_houses m1 houseSamples

/-- `k` successive external calls to `optimize_distribution`, each with
its own fuel (the GUI timer drives exactly such repeated calls). -/
def applyCalls (fuels : Nat → Nat) : Nat → Model → Model
  | 0, m => m
  | Nat.succ k, m => applyCalls fuels k (optimize_distribution m (fuels k))

/-- Well-formedness of a reachable model state: hospitals pairwise at
distance at least `MIN_HOSPITAL_DISTANCE`, no duplicate hospital
coordinates, and the grid consistent with both coordinate sets. -/
structure WF (m : Model) : Prop where
  spaced : m.hospitals.Pairwise fun a b => m.MIN_HOSPITAL_DISTANCE ≤ a.distance_to b
  nodup : m.hospitals.Nodup
  grid_hosp : ∀ c : Coordinate, m.grid c.x c.y = 2 ↔ c ∈ m.hospitals
  grid_house : ∀ c : Coordinate, m.grid c.x c.y = 1 ↔ c ∈ m.houses

/-- What a single optimizer step (and hence any number of them)
preserves: every configuration field, the houses set, the number of
hospitals, and the grid values at all house cells. -/
structure StepOk (m m2 : Model) : Prop where
  rows_eq : m2.rows = m.rows
  cols_eq : m2.cols = m.cols
  numh_eq : m2.num_hospitals = m.num_hospitals
  numhs_eq : m2.num_houses = m.num_houses
  min_eq : m2.MIN_HOSPITAL_DISTANCE = m.MIN_HOSPITAL_DISTANCE
  max_eq : m2.MAX_HOUSE_HOSPITAL_DISTANCE = m.MAX_HOUSE_HOSPITAL_DISTANCE
  houses_eq : m2.houses = m.houses
  hlen_eq : m2.hospitals.length = m.hospitals.length
  house_cells : ∀ c ∈ m.houses, m2.grid c.x c.y = m.grid c.x c.y

/-- Invariant of the accumulator `(best_score, best_new_pos, improved)`
along the nine candidate directions for one hospital. -/
def AccOk (m : Model) (old : Coordinate) (bs0 : Option Nat) (imp0 : Bool)
    (acc : Option Nat × Option Coordinate × Bool) : Prop :=
  (acc.2.1 = none → acc = (bs0, none, imp0)) ∧
  (∀ p, acc.2.1 = some p →
    acc.1 = calculate_score (commitMove m old p) ∧
    infLt acc.1 bs0 = true ∧
    acc.2.2 = true ∧
    is_valid_hospital_position (hospitalRemoved m old) p = true ∧
    (p.x - old.x).natAbs ≤ 1 ∧ (p.y - old.y).natAbs ≤ 1)

/-- Invariant of the state `(model, best_score, improved)` along one
sweep started from `m0` with `best_score = bs0`. -/
def SweepInv (m0 : Model) (bs0 : Option Nat) (st : Model × Option Nat × Bool) : Prop :=
  WF st.1 ∧ StepOk m0 st.1 ∧ st.2.1 = calculate_score st.1 ∧
  (st.2.2 = false → st.1 = m0 ∧ st.2.1 = bs0) ∧
  (st.2.2 = true → infLt st.2.1 bs0 = true)

/-- `{ m with MAX_HOUSE_HOSPITAL_DISTANCE := v }`. -/
def withMAX (m : Model) (v : Nat) : Model :=
  { m with MAX_HOUSE_HOSPITAL_DISTANCE := v }

/-- A Python `Coordinate` *object*: the class defines neither `__eq__`
nor `__hash__`, so CPython compares and hashes by object identity.
`oid` stands for the object's identity (`id()`); `x`, `y` are the
attribute values. -/
structure PyCoordinate where
  oid : Nat
  x : Int
  y : Int
deriving DecidableEq

/-- Default CPython `==` on `Coordinate` objects: identity comparison
(no `__eq__` is defined in the class). -/
def pyEq (a b : PyCoordinate) : Bool := decide (a.oid = b.oid)

/-- Default CPython `hash()` on `Coordinate` objects: derived from the
object identity (no `__hash__` is defined in the class). -/
def pyHash (a : PyCoordinate) : Nat := a.oid

/-- `set.add` under the default identity equality. -/
def pySetAdd (s : List PyCoordinate) (c : PyCoordinate) : List PyCoordinate :=
  if s.any fun d => pyEq d c then s else c :: s

/-- Specification-side scoring: the minimum over a list of hospitals of
the Manhattan distance, as a plain natural number (meaningful when the
list is non-empty). -/
def minDistNat (house : Coordinate) : List Coordinate → Nat
  | [] => 0
  | h :: t => t.foldl (fun acc hosp => min acc (house.distance_to hosp)) (house.distance_to h)

/-- Specification-side scoring, following the spec's words: for every
house, compute the minimum Manhattan distance to any hospital; sum these
minima over all houses. -/
def scoreSpec (m : Model) : Nat :=
  (m.houses.map fun house => minDistNat house m.hospitals).sum

/-- Scenario A of the spec: 5×5 grid, one hospital forced at (0, 0), one
house at (4, 4), built by the initializer from those samples. -/
def scenarioA : Model :=
  (initialize_random_positions (mkModel 5 5 1 1) [(0, 0)] [(4, 4)]).getD (mkModel 5 5 1 1)

/-- Scenario B of the spec: one hospital, zero houses. -/
def scenarioB : Model :=
  (initialize_random_positions (mkModel 3 3 1 0) [(0, 0)] []).getD (mkModel 3 3 1 0)

/-- A converged state: 2×1 grid, hospital at (0, 0), house at (1, 0);
no candidate relocation improves the score. -/
def scenarioConv : Model :=
  (initialize_random_positions (mkModel 2 1 1 1) [(0, 0)] [(1, 0)]).getD (mkModel 2 1 1 1)

example : calculate_score scenarioA = some 8 := by decide
example : calculate_score scenarioB = some 0 := by decide
example : (optimize_distribution scenarioA 9).hospitals = [⟨3, 4⟩] := by decide
example : (sweep scenarioConv (calculate_score scenarioConv)).2.2 = false := by decide
example : initialize_random_positions (mkModel 5 5 1 1) [(0, 0)] [(4, 4)] = some scenarioA := rfl

/-! ### Arithmetic over scores with `float('inf')` -/

theorem infLt_irrefl (a : Option Nat) : infLt a a = false := by
  cases a <;> simp [infLt]

theorem infLt_trans {a b c : Option Nat} (h1 : infLt a b = true)
    (h2 : infLt b c = true) : infLt a c = true := by
  cases a <;> cases b <;> cases c <;> simp_all [infLt] <;> omega

theorem infLe_refl (a : Option Nat) : infLe a a = true := by
  cases a <;> simp [infLe]

theorem infLe_of_infLt {a b : Option Nat} (h : infLt a b = true) :
    infLe a b = true := by
  cases a <;> cases b <;> simp_all [infLt, infLe] <;> omega

theorem infLe_trans {a b c : Option Nat} (h1 : infLe a b = true)
    (h2 : infLe b c = true) : infLe a c = true := by
  cases a <;> cases b <;> cases c <;> simp_all [infLe] <;> omega

theorem infLt_none_left {b : Option Nat} : infLt none b = false := by
  cases b <;> simp [infLt]

/-! ### Manhattan distance -/

theorem distance_comm (a b : Coordinate) : a.distance_to b = b.distance_to a := by
  unfold Coordinate.distance_to
  omega

theorem distance_eq_zero_iff {a b : Coordinate} : a.distance_to b = 0 ↔ a = b := by
  unfold Coordinate.distance_to
  constructor
  · intro h
    have hx : a.x = b.x := by omega
    have hy : a.y = b.y := by omega
    cases a; cases b; simp_all
  · intro h; subst h; simp

theorem distance_pos_of_ne {a b : Coordinate} (h : a ≠ b) : 1 ≤ a.distance_to b := by
  by_contra hcon
  exact h (distance_eq_zero_iff.mp (by omega))

/-! ### `removeCoord` -/

theorem removeCoord_sublist (l : List Coordinate) (c : Coordinate) :
    (removeCoord l c).Sublist l := by
  induction l with
  | nil => simp [removeCoord]
  | cons h t ih =>
    unfold removeCoord
    by_cases hc : h = c
    · simp [hc]
    · simpa [hc] using ih.cons₂ h

theorem mem_of_mem_removeCoord {l : List Coordinate} {c a : Coordinate}
    (h : a ∈ removeCoord l c) : a ∈ l :=
  (removeCoord_sublist l c).mem h

theorem mem_removeCoord {l : List Coordinate} (hl : l.Nodup) (c a : Coordinate) :
    a ∈ removeCoord l c ↔ a ∈ l ∧ a ≠ c := by
  induction l with
  | nil => simp [removeCoord]
  | cons h t ih =>
    rw [List.nodup_cons] at hl
    unfold removeCoord
    by_cases hc : h = c
    · subst hc
      simp only [if_pos rfl, List.mem_cons]
      constructor
      · intro ha
        exact ⟨Or.inr ha, fun hac => hl.1 (hac ▸ ha)⟩
      · rintro ⟨rfl | hat, hne⟩
        · exact absurd rfl hne
        · exact hat
    · simp only [if_neg hc, List.mem_cons, ih hl.2]
      constructor
      · rintro (rfl | ⟨hat, hne⟩)
        · exact ⟨Or.inl rfl, fun hac => hc hac⟩
        · exact ⟨Or.inr hat, hne⟩
      · rintro ⟨rfl | hat, hne⟩
        · exact Or.inl rfl
        · exact Or.inr ⟨hat, hne⟩

theorem length_removeCoord {l : List Coordinate} {c : Coordinate} (h : c ∈ l) :
    (removeCoord l c).length + 1 = l.length := by
  induction l with
  | nil => cases h
  | cons hd t ih =>
    unfold removeCoord
    by_cases hc : hd = c
    · simp [hc]
    · have ht : c ∈ t := by
        rcases List.mem_cons.mp h with rfl | ht
        · exact absurd rfl hc
        · exact ht
      simp [hc, ih ht]

theorem perm_cons_removeCoord {l : List Coordinate} {c : Coordinate} (h : c ∈ l) :
    (c :: removeCoord l c).Perm l := by
  induction l with
  | nil => cases h
  | cons hd t ih =>
    unfold removeCoord
    by_cases hc : hd = c
    · subst hc; simp
    · have ht : c ∈ t := by
        rcases List.mem_cons.mp h with rfl | ht
        · exact absurd rfl hc
        · exact ht
      simp only [if_neg hc]
      exact (List.Perm.swap hd c _).trans ((ih ht).cons hd)

/-! ### Validity -/

theorem valid_iff (m : Model) (pos : Coordinate) :
    is_valid_hospital_position m pos = true ↔
      m.grid pos.x pos.y = 0 ∧
      ∀ h ∈ m.hospitals, m.MIN_HOSPITAL_DISTANCE ≤ pos.distance_to h := by
  unfold is_valid_hospital_position
  by_cases hg : m.grid pos.x pos.y = 0
  · simp [hg, List.all_eq_true, Nat.not_lt]
  · simp [hg]

/-! ### Scoring -/

theorem foldl_infMin_perm (house : Coordinate) {l1 l2 : List Coordinate}
    (h : l1.Perm l2) :
    ∀ acc : Option Nat,
      l1.foldl (fun acc2 hosp => infMin acc2 (some (house.distance_to hosp))) acc =
      l2.foldl (fun acc2 hosp => infMin acc2 (some (house.distance_to hosp))) acc := by
  induction h with
  | nil => intro acc; rfl
  | cons x _ ih => intro acc; simpa using ih _
  | swap x y l =>
    intro acc
    simp only [List.foldl_cons]
    congr 1
    cases acc with
    | none => simp [infMin, Nat.min_comm]
    | some a => simp [infMin, Nat.min_assoc, Nat.min_comm (house.distance_to y)]
  | trans _ _ ih1 ih2 => intro acc; rw [ih1 acc, ih2 acc]

theorem min_distance_perm (house : Coordinate) {l1 l2 : List Coordinate}
    (h : l1.Perm l2) : min_distance house l1 = min_distance house l2 :=
  foldl_infMin_perm house h none

theorem calculate_score_congr {m1 m2 : Model} (hh : m1.houses = m2.houses)
    (hp : m1.hospitals.Perm m2.hospitals) :
    calculate_score m1 = calculate_score m2 := by
  unfold calculate_score
  rw [hh]
  congr 1
  funext acc house
  rw [min_distance_perm house hp]

theorem score_commit_self {m : Model} {old : Coordinate} (h : old ∈ m.hospitals) :
    calculate_score (commitMove m old old) = calculate_score m :=
  calculate_score_congr rfl (perm_cons_removeCoord h)

theorem foldl_infMin_some (house : Coordinate) (t : List Coordinate) :
    ∀ a : Nat,
      t.foldl (fun acc hosp => infMin acc (some (house.distance_to hosp))) (some a) =
      some (t.foldl (fun acc hosp => min acc (house.distance_to hosp)) a) := by
  induction t with
  | nil => intro a; rfl
  | cons h t ih => intro a; simpa [infMin] using ih (min a (house.distance_to h))

theorem min_distance_eq_some (house : Coordinate) {l : List Coordinate}
    (h : l ≠ []) : min_distance house l = some (minDistNat house l) := by
  cases l with
  | nil => exact absurd rfl h
  | cons hd t =>
    unfold min_distance minDistNat
    simpa [infMin] using foldl_infMin_some house t (house.distance_to hd)

theorem foldl_infAdd_some (f : Coordinate → Nat) (l : List Coordinate) :
    ∀ a : Nat,
      l.foldl (fun acc c => infAdd acc (some (f c))) (some a) =
      some (l.foldl (fun acc c => acc + f c) a) := by
  induction l with
  | nil => intro a; rfl
  | cons h t ih => intro a; simpa [infAdd] using ih (a + f h)

theorem foldl_add_eq_sum (f : Coordinate → Nat) (l : List Coordinate) :
    ∀ a : Nat, l.foldl (fun acc c => acc + f c) a = a + (l.map f).sum := by
  induction l with
  | nil => intro a; simp
  | cons h t ih => intro a; simp [ih (a + f h), Nat.add_assoc]

theorem calculate_score_eq_some_scoreSpec {m : Model} (h : m.hospitals ≠ []) :
    calculate_score m = some (scoreSpec m) := by
  unfold calculate_score scoreSpec
  have hmd : ∀ house : Coordinate,
      min_distance house m.hospitals = some (minDistNat house m.hospitals) :=
    fun house => min_distance_eq_some house h
  simp only [hmd]
  rw [foldl_infAdd_some (fun house => minDistNat house m.hospitals) m.houses 0,
    foldl_add_eq_sum]
  simp

theorem score_isSome_of_hospitals {m : Model} (h : m.hospitals ≠ []) :
    ∃ n : Nat, calculate_score m = some n :=
  ⟨scoreSpec m, calculate_score_eq_some_scoreSpec h⟩

/-! ### Grid updates and committed moves -/

theorem setCell_coord (g : Int → Int → Nat) (c : Coordinate) (v : Nat)
    (d : Coordinate) : setCell g c v d.x d.y = if d = c then v else g d.x d.y := by
  unfold setCell
  by_cases hdc : d = c
  · simp [hdc]
  · have : ¬(d.x = c.x ∧ d.y = c.y) := by
      intro hxy
      exact hdc (by cases d; cases c; simp_all)
    simp [this, hdc]

theorem stepOk_rfl (m : Model) : StepOk m m :=
  ⟨rfl, rfl, rfl, rfl, rfl, rfl, rfl, rfl, fun _ _ => rfl⟩

theorem StepOk.comp {m1 m2 m3 : Model} (h12 : StepOk m1 m2) (h23 : StepOk m2 m3) :
    StepOk m1 m3 := by
  refine ⟨h23.rows_eq.trans h12.rows_eq, h23.cols_eq.trans h12.cols_eq,
    h23.numh_eq.trans h12.numh_eq, h23.numhs_eq.trans h12.numhs_eq,
    h23.min_eq.trans h12.min_eq, h23.max_eq.trans h12.max_eq,
    h23.houses_eq.trans h12.houses_eq, h23.hlen_eq.trans h12.hlen_eq, ?_⟩
  intro c hc
  have hc2 : c ∈ m2.houses := by rw [h12.houses_eq]; exact hc
  exact (h23.house_cells c hc2).trans (h12.house_cells c hc)

theorem valid_target_not_old_hospital {m : Model} {old p : Coordinate}
    (hWF : WF m)
    (hv : is_valid_hospital_position (hospitalRemoved m old) p = true)
    (hne : p ≠ old) : m.grid p.x p.y = 0 := by
  have hg0 := ((valid_iff _ _).mp hv).1
  have : setCell m.grid old 0 p.x p.y = 0 := hg0
  rwa [setCell_coord, if_neg hne] at this

theorem valid_target_not_house {m : Model} {old p : Coordinate} (hWF : WF m)
    (hold : old ∈ m.hospitals)
    (hv : is_valid_hospital_position (hospitalRemoved m old) p = true) :
    p ∉ m.houses := by
  intro hp
  have h1 : m.grid p.x p.y = 1 := (hWF.grid_house p).mpr hp
  by_cases hne : p = old
  · have h2 : m.grid old.x old.y = 2 := (hWF.grid_hosp old).mpr hold
    rw [hne] at h1
    omega
  · have := valid_target_not_old_hospital hWF hv hne
    omega

theorem old_not_house {m : Model} {old : Coordinate} (hWF : WF m)
    (hold : old ∈ m.hospitals) : old ∉ m.houses := by
  intro hc
  have h1 : m.grid old.x old.y = 1 := (hWF.grid_house old).mpr hc
  have h2 : m.grid old.x old.y = 2 := (hWF.grid_hosp old).mpr hold
  omega

theorem commit_WF {m : Model} {old p : Coordinate} (hWF : WF m)
    (hold : old ∈ m.hospitals)
    (hv : is_valid_hospital_position (hospitalRemoved m old) p = true) :
    WF (commitMove m old p) := by
  obtain ⟨hg0, hdist⟩ := (valid_iff _ _).mp hv
  have hpnotin : p ∉ removeCoord m.hospitals old := by
    intro hp
    obtain ⟨hpm, hpne⟩ := (mem_removeCoord hWF.nodup old p).mp hp
    have h2 : m.grid p.x p.y = 2 := (hWF.grid_hosp p).mpr hpm
    have h0 : m.grid p.x p.y = 0 := valid_target_not_old_hospital hWF hv hpne
    omega
  have holdnotin : old ∉ removeCoord m.hospitals old := by
    intro hc
    exact ((mem_removeCoord hWF.nodup old old).mp hc).2 rfl
  refine ⟨?_, ?_, ?_, ?_⟩
  · -- spacing: the new position is checked against every other hospital
    refine List.pairwise_cons.mpr ⟨fun b hb => hdist b hb, ?_⟩
    exact hWF.spaced.sublist (removeCoord_sublist _ _)
  · exact List.nodup_cons.mpr ⟨hpnotin, hWF.nodup.sublist (removeCoord_sublist _ _)⟩
  · intro c
    show setCell (setCell m.grid old 0) p 2 c.x c.y = 2 ↔
      c ∈ p :: removeCoord m.hospitals old
    rw [setCell_coord]
    by_cases hcp : c = p
    · simp [hcp]
    · rw [if_neg hcp, setCell_coord]
      by_cases hco : c = old
      · subst hco
        simp only [if_pos rfl, List.mem_cons]
        constructor
        · intro h; simp at h
        · rintro (rfl | hmem)
          · exact absurd rfl hcp
          · exact absurd hmem holdnotin
      · rw [if_neg hco]
        rw [hWF.grid_hosp c, List.mem_cons, mem_removeCoord hWF.nodup]
        constructor
        · intro hc; exact Or.inr ⟨hc, hco⟩
        · rintro (rfl | ⟨hc, _⟩)
          · exact absurd rfl hcp
          · exact hc
  · intro c
    show setCell (setCell m.grid old 0) p 2 c.x c.y = 1 ↔ c ∈ m.houses
    rw [setCell_coord]
    by_cases hcp : c = p
    · subst hcp
      simp only [if_pos rfl]
      constructor
      · intro h; simp at h
      · intro hc; exact absurd hc (valid_target_not_house hWF hold hv)
    · rw [if_neg hcp, setCell_coord]
      by_cases hco : c = old
      · subst hco
        simp only [if_pos rfl]
        constructor
        · intro h; simp at h
        · intro hc; exact absurd hc (old_not_house hWF hold)
      · rw [if_neg hco]
        exact hWF.grid_house c

theorem commit_StepOk {m : Model} {old p : Coordinate} (hWF : WF m)
    (hold : old ∈ m.hospitals)
    (hv : is_valid_hospital_position (hospitalRemoved m old) p = true) :
    StepOk m (commitMove m old p) := by
  refine ⟨rfl, rfl, rfl, rfl, rfl, rfl, rfl, ?_, ?_⟩
  · show (p :: removeCoord m.hospitals old).length = m.hospitals.length
    rw [List.length_cons, length_removeCoord hold]
  · intro c hc
    show setCell (setCell m.grid old 0) p 2 c.x c.y = m.grid c.x c.y
    have hcp : c ≠ p := by
      intro hcp; rw [hcp] at hc
      exact valid_target_not_house hWF hold hv hc
    have hco : c ≠ old := by
      intro hco; rw [hco] at hc
      exact old_not_house hWF hold hc
    rw [setCell_coord, if_neg hcp, setCell_coord, if_neg hco]

/-! ### The candidate scan -/

theorem foldlPres {α β : Type} {P : β → Prop} {step : β → α → β} :
    ∀ l : List α, (∀ d ∈ l, ∀ b, P b → P (step b d)) →
      ∀ b, P b → P (l.foldl step b) := by
  intro l
  induction l with
  | nil => intro _ b hb; exact hb
  | cons h t ih =>
    intro hstep b hb
    exact ih (fun d hd => hstep d (List.mem_cons_of_mem h hd)) _
      (hstep h (List.mem_cons_self h t) b hb)

theorem AccOk_init (m : Model) (old : Coordinate) (bs0 : Option Nat) (imp0 : Bool) :
    AccOk m old bs0 imp0 (bs0, none, imp0) :=
  ⟨fun _ => rfl, fun _ hp => Option.noConfusion hp⟩

theorem tryOffset_AccOk {m : Model} {old : Coordinate} {bs0 : Option Nat}
    {imp0 : Bool} :
    ∀ d ∈ offsets, ∀ acc, AccOk m old bs0 imp0 acc →
      AccOk m old bs0 imp0 (tryOffset m old acc d) := by
  intro d hd acc hAcc
  have hdabs : d.1.natAbs ≤ 1 ∧ d.2.natAbs ≤ 1 := by
    fin_cases hd <;> decide
  unfold tryOffset
  dsimp only
  split
  case isFalse => exact hAcc
  case isTrue hbnd =>
    split
    case isFalse => exact hAcc
    case isTrue hv =>
      split
      case isFalse => exact hAcc
      case isTrue hlt =>
        constructor
        · intro hnone; exact Option.noConfusion hnone
        · intro p hp
          have hpeq : (⟨old.x + d.1, old.y + d.2⟩ : Coordinate) = p :=
            Option.some.inj hp
          subst hpeq
          refine ⟨rfl, ?_, rfl, hv, ?_, ?_⟩
          · rcases hA21 : acc.2.1 with _ | q
            · have := hAcc.1 hA21
              rw [this] at hlt
              exact hlt
            · exact infLt_trans hlt ((hAcc.2 q hA21).2.1)
          · show ((old.x + d.1 : Int) - old.x).natAbs ≤ 1
            omega
          · show ((old.y + d.2 : Int) - old.y).natAbs ≤ 1
            omega

theorem scanHospital_spec {m : Model} (old : Coordinate) (imp : Bool)
    (hWF : WF m) (hold : old ∈ m.hospitals) :
    scanHospital m old (calculate_score m) imp = (m, calculate_score m, imp) ∨
    ∃ p, is_valid_hospital_position (hospitalRemoved m old) p = true ∧
      p ≠ old ∧ (p.x - old.x).natAbs ≤ 1 ∧ (p.y - old.y).natAbs ≤ 1 ∧
      infLt (calculate_score (commitMove m old p)) (calculate_score m) = true ∧
      scanHospital m old (calculate_score m) imp =
        (commitMove m old p, calculate_score (commitMove m old p), true) := by
  have hAcc : AccOk m old (calculate_score m) imp
      (offsets.foldl (tryOffset m old) (calculate_score m, none, imp)) :=
    foldlPres offsets (fun d hd => tryOffset_AccOk d hd) _
      (AccOk_init m old (calculate_score m) imp)
  rcases hacc : (offsets.foldl (tryOffset m old) (calculate_score m, none, imp)).2.1
    with _ | p
  · left
    have hfix := hAcc.1 hacc
    unfold scanHospital
    rw [hfix]
  · right
    obtain ⟨hsc, hlt, himp, hv, hx, hy⟩ := hAcc.2 p hacc
    rw [hsc] at hlt
    have hne : p ≠ old := by
      intro hpo
      subst hpo
      rw [score_commit_self hold] at hlt
      rw [infLt_irrefl] at hlt
      exact Bool.noConfusion hlt
    refine ⟨p, hv, hne, hx, hy, hlt, ?_⟩
    rcases hsplit : offsets.foldl (tryOffset m old) (calculate_score m, none, imp)
      with ⟨a, b, c⟩
    rw [hsplit] at hacc hsc himp
    dsimp only at hacc hsc himp
    subst hacc
    unfold scanHospital
    rw [hsplit, hsc, himp]

/-! ### One sweep -/

theorem scanHospital_keep_or_imp (m : Model) (old : Coordinate) (bs : Option Nat)
    (imp : Bool) :
    scanHospital m old bs imp = (m, bs, imp) ∨
    (scanHospital m old bs imp).2.2 = true := by
  have hAcc : AccOk m old bs imp (offsets.foldl (tryOffset m old) (bs, none, imp)) :=
    foldlPres offsets (fun d hd => tryOffset_AccOk d hd) _ (AccOk_init m old bs imp)
  rcases hacc : (offsets.foldl (tryOffset m old) (bs, none, imp)).2.1 with _ | p
  · left
    have hfix := hAcc.1 hacc
    unfold scanHospital
    rw [hfix]
  · right
    obtain ⟨_, _, himp, _⟩ := hAcc.2 p hacc
    rcases hsplit : offsets.foldl (tryOffset m old) (bs, none, imp) with ⟨a, b, c⟩
    rw [hsplit] at hacc himp
    dsimp only at hacc himp
    subst hacc
    unfold scanHospital
    rw [hsplit]
    exact himp

theorem scanHospital_imp_true (m : Model) (old : Coordinate) (bs : Option Nat) :
    (scanHospital m old bs true).2.2 = true := by
  rcases scanHospital_keep_or_imp m old bs true with h | h
  · rw [h]
  · exact h

theorem sweepFold_imp_true :
    ∀ (l : List Coordinate) (st : Model × Option Nat × Bool), st.2.2 = true →
      (l.foldl (fun s h => scanHospital s.1 h s.2.1 s.2.2) st).2.2 = true := by
  intro l
  induction l with
  | nil => intro st h; exact h
  | cons hd t ih =>
    intro st h
    rw [List.foldl_cons]
    apply ih
    rw [h]
    exact scanHospital_imp_true st.1 hd st.2.1

theorem sweepFold_false_fix :
    ∀ (l : List Coordinate) (st : Model × Option Nat × Bool),
      (l.foldl (fun s h => scanHospital s.1 h s.2.1 s.2.2) st).2.2 = false →
      l.foldl (fun s h => scanHospital s.1 h s.2.1 s.2.2) st = st := by
  intro l
  induction l with
  | nil => intro st _; rfl
  | cons hd t ih =>
    intro st hfin
    rcases scanHospital_keep_or_imp st.1 hd st.2.1 st.2.2 with h | h
    · have hst : (st.1, st.2.1, st.2.2) = st := by
        rcases st with ⟨m1, b1, i1⟩; rfl
      rw [List.foldl_cons] at hfin ⊢
      rw [h, hst] at hfin ⊢
      exact ih st hfin
    · have h2 := sweepFold_imp_true t (scanHospital st.1 hd st.2.1 st.2.2) h
      rw [List.foldl_cons] at hfin
      rw [h2] at hfin
      exact Bool.noConfusion hfin

theorem sweep_false_fix {m : Model} {bs : Option Nat}
    (h : (sweep m bs).2.2 = false) : sweep m bs = (m, bs, false) := by
  unfold sweep at h ⊢
  exact sweepFold_false_fix m.hospitals (m, bs, false) h

theorem sweep_fold_spec {m0 : Model} {bs0 : Option Nat} :
    ∀ (l : List Coordinate) (st : Model × Option Nat × Bool),
      l.Nodup → (∀ c ∈ l, c ∈ st.1.hospitals) → SweepInv m0 bs0 st →
      SweepInv m0 bs0 (l.foldl (fun s h => scanHospital s.1 h s.2.1 s.2.2) st) := by
  intro l
  induction l with
  | nil => intro st _ _ hInv; exact hInv
  | cons hd t ih =>
    intro st hnd hmem hInv
    obtain ⟨hWF, hStep, hbs, hfalse, htrue⟩ := hInv
    have hhd : hd ∈ st.1.hospitals := hmem hd (List.mem_cons_self hd t)
    have hndt := List.nodup_cons.mp hnd
    rw [List.foldl_cons, hbs]
    rcases scanHospital_spec (m := st.1) hd st.2.2 hWF hhd
      with heq | ⟨p, hv, hne, hx, hy, hlt, heq⟩
    · rw [heq, ← hbs]
      have hst : (st.1, st.2.1, st.2.2) = st := by
        rcases st with ⟨m1, b1, i1⟩; rfl
      rw [hst]
      exact ih st hndt.2 (fun c hc => hmem c (List.mem_cons_of_mem hd hc))
        ⟨hWF, hStep, hbs, hfalse, htrue⟩
    · rw [heq]
      have hWF2 := commit_WF hWF hhd hv
      have hStep2 := commit_StepOk hWF hhd hv
      apply ih _ hndt.2
      · intro c hc
        have hcm : c ∈ st.1.hospitals := hmem c (List.mem_cons_of_mem hd hc)
        have hchd : c ≠ hd := fun hchd => hndt.1 (hchd ▸ hc)
        show c ∈ (commitMove st.1 hd p).hospitals
        show c ∈ p :: removeCoord st.1.hospitals hd
        exact List.mem_cons_of_mem p ((mem_removeCoord hWF.nodup hd c).mpr ⟨hcm, hchd⟩)
      · refine ⟨hWF2, StepOk.comp hStep hStep2, rfl, ?_, ?_⟩
        · intro hcon; exact Bool.noConfusion hcon
        · intro _
          show infLt (calculate_score (commitMove st.1 hd p)) bs0 = true
          rw [← hbs] at hlt
          cases hb2 : st.2.2 with
          | false =>
            obtain ⟨_, hbq⟩ := hfalse hb2
            rw [hbq] at hlt
            exact hlt
          | true => exact infLt_trans hlt (htrue hb2)

theorem sweep_spec {m : Model} (hWF : WF m) :
    SweepInv m (calculate_score m) (sweep m (calculate_score m)) := by
  unfold sweep
  exact sweep_fold_spec m.hospitals (m, calculate_score m, false) hWF.nodup
    (fun c hc => hc)
    ⟨hWF, stepOk_rfl m, rfl, fun _ => ⟨rfl, rfl⟩, fun htrue => Bool.noConfusion htrue⟩

/-! ### The optimizer loop -/

theorem optimizeAux_succ (m : Model) (n : Nat) (bs : Option Nat) :
    optimizeAux (Nat.succ n) m bs =
      (if (sweep m bs).2.2 then optimizeAux n (sweep m bs).1 (sweep m bs).2.1
       else (sweep m bs).1) := rfl

theorem optimizeAux_preserves :
    ∀ (fuel : Nat) (m : Model), WF m →
      WF (optimizeAux fuel m (calculate_score m)) ∧
      StepOk m (optimizeAux fuel m (calculate_score m)) ∧
      infLe (calculate_score (optimizeAux fuel m (calculate_score m)))
        (calculate_score m) = true := by
  intro fuel
  induction fuel with
  | zero => intro m hWF; exact ⟨hWF, stepOk_rfl m, infLe_refl _⟩
  | succ n ih =>
    intro m hWF
    obtain ⟨hWF1, hStep1, hbs1, hfalse, htrue⟩ := sweep_spec hWF
    rw [optimizeAux_succ]
    cases hb : (sweep m (calculate_score m)).2.2 with
    | false =>
      obtain ⟨hm, _⟩ := hfalse hb
      simp only [Bool.false_eq_true, if_false, hm]
      exact ⟨hWF, stepOk_rfl m, infLe_refl _⟩
    | true =>
      simp only [if_true, hbs1]
      obtain ⟨h1, h2, h3⟩ := ih (sweep m (calculate_score m)).1 hWF1
      refine ⟨h1, StepOk.comp hStep1 h2, ?_⟩
      have hlt := htrue hb
      rw [hbs1] at hlt
      exact infLe_trans h3 (infLe_of_infLt hlt)

theorem scoreFuel_pos (m : Model) : 1 ≤ scoreFuel m := by
  simp [scoreFuel]

theorem optimizeAux_fix :
    ∀ (fuel : Nat) (m : Model), WF m → scoreFuel m ≤ fuel →
      (∀ fuel2, scoreFuel m ≤ fuel2 →
        optimizeAux fuel2 m (calculate_score m) =
          optimizeAux fuel m (calculate_score m)) ∧
      (sweep (optimizeAux fuel m (calculate_score m))
        (calculate_score (optimizeAux fuel m (calculate_score m)))).2.2 = false := by
  intro fuel
  induction fuel with
  | zero =>
    intro m _ hf
    exact absurd hf (by have := scoreFuel_pos m; omega)
  | succ n ih =>
    intro m hWF hf
    obtain ⟨hWF1, hStep1, hbs1, hfalse, htrue⟩ := sweep_spec hWF
    cases hb : (sweep m (calculate_score m)).2.2 with
    | false =>
      obtain ⟨hm, _⟩ := hfalse hb
      have hred : ∀ k : Nat, optimizeAux (Nat.succ k) m (calculate_score m) =
          (sweep m (calculate_score m)).1 := by
        intro k
        rw [optimizeAux_succ, hb]
        simp
      constructor
      · intro fuel2 hf2
        cases fuel2 with
        | zero => exact absurd hf2 (by have := scoreFuel_pos m; omega)
        | succ n2 => rw [hred n2, hred n]
      · rw [hred n, hm]
        exact hb
    | true =>
      have hlt2 : infLt (calculate_score (sweep m (calculate_score m)).1)
          (calculate_score m) = true := by
        rw [← hbs1]
        exact htrue hb
      have hmne : m.hospitals ≠ [] := by
        intro hnil
        have hsw : sweep m (calculate_score m) = (m, calculate_score m, false) := by
          unfold sweep
          rw [hnil]
          rfl
        rw [hsw] at hb
        exact Bool.noConfusion hb
      obtain ⟨s0, hs0⟩ := score_isSome_of_hospitals hmne
      rcases hsr : calculate_score (sweep m (calculate_score m)).1 with _ | s1
      · rw [hsr, infLt_none_left] at hlt2
        exact Bool.noConfusion hlt2
      · rw [hsr, hs0] at hlt2
        have hs1lt : s1 < s0 := by simpa [infLt] using hlt2
        have hfm : scoreFuel m = s0 + 1 := by simp [scoreFuel, hs0, toFuel]
        have hfr : scoreFuel (sweep m (calculate_score m)).1 = s1 + 1 := by
          simp [scoreFuel, hsr, toFuel]
        have hlen : scoreFuel (sweep m (calculate_score m)).1 ≤ n := by omega
        obtain ⟨ihfix, ihconv⟩ := ih (sweep m (calculate_score m)).1 hWF1 hlen
        have hred : ∀ k : Nat, optimizeAux (Nat.succ k) m (calculate_score m) =
            optimizeAux k (sweep m (calculate_score m)).1
              (calculate_score (sweep m (calculate_score m)).1) := by
          intro k
          rw [optimizeAux_succ, hb]
          simp only [if_true, hbs1]
        constructor
        · intro fuel2 hf2
          cases fuel2 with
          | zero => exact absurd hf2 (by have := scoreFuel_pos m; omega)
          | succ n2 =>
            rw [hred n2, hred n]
            have hn2 : scoreFuel (sweep m (calculate_score m)).1 ≤ n2 := by omega
            rw [ihfix n2 hn2, ihfix n (by omega)]
        · rw [hred n]
          exact ihconv

/-! ### Initialization -/

theorem try_place_hospital_fields (m : Model) (s : Int × Int) :
    (try_place_hospital m s).rows = m.rows ∧
    (try_place_hospital m s).cols = m.cols ∧
    (try_place_hospital m s).num_hospitals = m.num_hospitals ∧
    (try_place_hospital m s).num_houses = m.num_houses ∧
    (try_place_hospital m s).MIN_HOSPITAL_DISTANCE = m.MIN_HOSPITAL_DISTANCE ∧
    (try_place_hospital m s).MAX_HOUSE_HOSPITAL_DISTANCE = m.MAX_HOUSE_HOSPITAL_DISTANCE ∧
    (try_place_hospital m s).houses = m.houses := by
  unfold try_place_hospital
  dsimp only
  split <;> exact ⟨rfl, rfl, rfl, rfl, rfl, rfl, rfl⟩

theorem place_hospitals_fields :
    ∀ (samples : List (Int × Int)) (m m1 : Model),
      place_hospitals m samples = some m1 →
      m1.rows = m.rows ∧ m1.cols = m.cols ∧
      m1.num_hospitals = m.num_hospitals ∧ m1.num_houses = m.num_houses ∧
      m1.MIN_HOSPITAL_DISTANCE = m.MIN_HOSPITAL_DISTANCE ∧
      m1.MAX_HOUSE_HOSPITAL_DISTANCE = m.MAX_HOUSE_HOSPITAL_DISTANCE ∧
      m1.houses = m.houses := by
  intro samples
  induction samples with
  | nil =>
    intro m m1 h
    unfold place_hospitals at h
    split at h
    · exact Option.noConfusion h
    · cases Option.some.inj h
      exact ⟨rfl, rfl, rfl, rfl, rfl, rfl, rfl⟩
  | cons s rest ih =>
    intro m m1 h
    unfold place_hospitals at h
    split at h
    · obtain ⟨h1, h2, h3, h4, h5, h6, h7⟩ := ih (try_place_hospital m s) m1 h
      obtain ⟨g1, g2, g3, g4, g5, g6, g7⟩ := try_place_hospital_fields m s
      exact ⟨h1.trans g1, h2.trans g2, h3.trans g3, h4.trans g4,
        h5.trans g5, h6.trans g6, h7.trans g7⟩
    · cases Option.some.inj h
      exact ⟨rfl, rfl, rfl, rfl, rfl, rfl, rfl⟩

theorem try_place_house_fields (m : Model) (s : Int × Int) :
    (try_place_house m s).rows = m.rows ∧
    (try_place_house m s).cols = m.cols ∧
    (try_place_house m s).num_hospitals = m.num_hospitals ∧
    (try_place_house m s).num_houses = m.num_houses ∧
    (try_place_house m s).MIN_HOSPITAL_DISTANCE = m.MIN_HOSPITAL_DISTANCE ∧
    (try_place_house m s).MAX_HOUSE_HOSPITAL_DISTANCE = m.MAX_HOUSE_HOSPITAL_DISTANCE ∧
    (try_place_house m s).hospitals = m.hospitals := by
  unfold try_place_house
  dsimp only
  split <;> exact ⟨rfl, rfl, rfl, rfl, rfl, rfl, rfl⟩

theorem place_houses_fields :
    ∀ (samples : List (Int × Int)) (m m1 : Model),
      place_houses m samples = some m1 →
      m1.rows = m.rows ∧ m1.cols = m.cols ∧
      m1.num_hospitals = m.num_hospitals ∧ m1.num_houses = m.num_houses ∧
      m1.MIN_HOSPITAL_DISTANCE = m.MIN_HOSPITAL_DISTANCE ∧
      m1.MAX_HOUSE_HOSPITAL_DISTANCE = m.MAX_HOUSE_HOSPITAL_DISTANCE ∧
      m1.hospitals = m.hospitals := by
  intro samples
  induction samples with
  | nil =>
    intro m m1 h
    unfold place_houses at h
    split at h
    · exact Option.noConfusion h
    · cases Option.some.inj h
      exact ⟨rfl, rfl, rfl, rfl, rfl, rfl, rfl⟩
  | cons s rest ih =>
    intro m m1 h
    unfold place_houses at h
    split at h
    · obtain ⟨h1, h2, h3, h4, h5, h6, h7⟩ := ih (try_place_house m s) m1 h
      obtain ⟨g1, g2, g3, g4, g5, g6, g7⟩ := try_place_house_fields m s
      exact ⟨h1.trans g1, h2.trans g2, h3.trans g3, h4.trans g4,
        h5.trans g5, h6.trans g6, h7.trans g7⟩
    · cases Option.some.inj h
      exact ⟨rfl, rfl, rfl, rfl, rfl, rfl, rfl⟩

theorem try_place_hospital_WF {m : Model} (hWF : WF m) (s : Int × Int) :
    WF (try_place_hospital m s) := by
  unfold try_place_hospital
  dsimp only
  split
  case isFalse => exact hWF
  case isTrue hv =>
    obtain ⟨hg0, hdist⟩ := (valid_iff m ⟨s.1, s.2⟩).mp hv
    have hnotin : (⟨s.1, s.2⟩ : Coordinate) ∉ m.hospitals := by
      intro hc
      have := (hWF.grid_hosp ⟨s.1, s.2⟩).mpr hc
      omega
    have hnothouse : (⟨s.1, s.2⟩ : Coordinate) ∉ m.houses := by
      intro hc
      have := (hWF.grid_house ⟨s.1, s.2⟩).mpr hc
      omega
    refine ⟨?_, ?_, ?_, ?_⟩
    · exact List.pairwise_cons.mpr ⟨fun b hb => hdist b hb, hWF.spaced⟩
    · exact List.nodup_cons.mpr ⟨hnotin, hWF.nodup⟩
    · intro c
      show setCell m.grid ⟨s.1, s.2⟩ 2 c.x c.y = 2 ↔ c ∈ _ :: m.hospitals
      rw [setCell_coord]
      by_cases hc : c = (⟨s.1, s.2⟩ : Coordinate)
      · simp [hc]
      · rw [if_neg hc, hWF.grid_hosp c, List.mem_cons]
        constructor
        · exact fun h => Or.inr h
        · rintro (rfl | h)
          · exact absurd rfl hc
          · exact h
    · intro c
      show setCell m.grid ⟨s.1, s.2⟩ 2 c.x c.y = 1 ↔ c ∈ m.houses
      rw [setCell_coord]
      by_cases hc : c = (⟨s.1, s.2⟩ : Coordinate)
      · subst hc
        simp only [if_pos rfl]
        constructor
        · intro h; simp at h
        · intro h; exact absurd h hnothouse
      · rw [if_neg hc]
        exact hWF.grid_house c

theorem place_hospitals_WF :
    ∀ (samples : List (Int × Int)) (m m1 : Model), WF m →
      place_hospitals m samples = some m1 → WF m1 := by
  intro samples
  induction samples with
  | nil =>
    intro m m1 hWF h
    unfold place_hospitals at h
    split at h
    · exact Option.noConfusion h
    · cases Option.some.inj h; exact hWF
  | cons s rest ih =>
    intro m m1 hWF h
    unfold place_hospitals at h
    split at h
    · exact ih (try_place_hospital m s) m1 (try_place_hospital_WF hWF s) h
    · cases Option.some.inj h; exact hWF

theorem try_place_house_WF {m : Model} (hWF : WF m) (s : Int × Int) :
    WF (try_place_house m s) := by
  unfold try_place_house
  dsimp only
  split
  case isFalse => exact hWF
  case isTrue hg0 =>
    have hnotin : (⟨s.1, s.2⟩ : Coordinate) ∉ m.hospitals := by
      intro hc
      have := (hWF.grid_hosp ⟨s.1, s.2⟩).mpr hc
      simp_all
    have hnothouse : (⟨s.1, s.2⟩ : Coordinate) ∉ m.houses := by
      intro hc
      have := (hWF.grid_house ⟨s.1, s.2⟩).mpr hc
      simp_all
    refine ⟨hWF.spaced, hWF.nodup, ?_, ?_⟩
    · intro c
      show setCell m.grid ⟨s.1, s.2⟩ 1 c.x c.y = 2 ↔ c ∈ m.hospitals
      rw [setCell_coord]
      by_cases hc : c = (⟨s.1, s.2⟩ : Coordinate)
      · subst hc
        simp only [if_pos rfl]
        constructor
        · intro h; simp at h
        · intro h; exact absurd h hnotin
      · rw [if_neg hc]
        exact hWF.grid_hosp c
    · intro c
      show setCell m.grid ⟨s.1, s.2⟩ 1 c.x c.y = 1 ↔ c ∈ _ :: m.houses
      rw [setCell_coord]
      by_cases hc : c = (⟨s.1, s.2⟩ : Coordinate)
      · simp [hc]
      · rw [if_neg hc, hWF.grid_house c, List.mem_cons]
        constructor
        · exact fun h => Or.inr h
        · rintro (rfl | h)
          · exact absurd rfl hc
          · exact h

theorem place_houses_WF :
    ∀ (samples : List (Int × Int)) (m m1 : Model), WF m →
      place_houses m samples = some m1 → WF m1 := by
  intro samples
  induction samples with
  | nil =>
    intro m m1 hWF h
    unfold place_houses at h
    split at h
    · exact Option.noConfusion h
    · cases Option.some.inj h; exact hWF
  | cons s rest ih =>
    intro m m1 hWF h
    unfold place_houses at h
    split at h
    · exact ih (try_place_house m s) m1 (try_place_house_WF hWF s) h
    · cases Option.some.inj h; exact hWF

theorem mkModel_WF (rows cols nh nhs : Int) : WF (mkModel rows cols nh nhs) := by
  refine ⟨List.Pairwise.nil, List.nodup_nil, ?_, ?_⟩
  · intro c
    constructor
    · intro h; simp [mkModel] at h
    · intro h; simp [mkModel] at h
  · intro c
    constructor
    · intro h; simp [mkModel] at h
    · intro h; simp [mkModel] at h

theorem init_WF {rows cols nh nhs : Int} {s1 s2 : List (Int × Int)} {m1 : Model}
    (h : initialize_random_positions (mkModel rows cols nh nhs) s1 s2 = some m1) :
    WF m1 := by
  unfold initialize_random_positions at h
  rcases hm : place_hospitals (mkModel rows cols nh nhs) s1 with _ | mh
  · rw [hm] at h; exact Option.noConfusion h
  · rw [hm] at h
    exact place_houses_WF s2 mh m1 (place_hospitals_WF s1 _ mh (mkModel_WF rows cols nh nhs) hm) h

theorem init_MIN {rows cols nh nhs : Int} {s1 s2 : List (Int × Int)} {m1 : Model}
    (h : initialize_random_positions (mkModel rows cols nh nhs) s1 s2 = some m1) :
    m1.MIN_HOSPITAL_DISTANCE = 3 := by
  unfold initialize_random_positions at h
  rcases hm : place_hospitals (mkModel rows cols nh nhs) s1 with _ | mh
  · rw [hm] at h; exact Option.noConfusion h
  · rw [hm] at h
    have h1 := (place_houses_fields s2 mh m1 h).2.2.2.2.1
    have h2 := (place_hospitals_fields s1 _ mh hm).2.2.2.2.1
    rw [h1, h2]
    rfl

theorem try_place_hospital_len (m : Model) (s : Int × Int) :
    (try_place_hospital m s).hospitals.length ≤ m.hospitals.length + 1 := by
  unfold try_place_hospital
  dsimp only
  split
  · exact Nat.le_refl _
  · exact Nat.le_succ _

theorem try_place_house_len (m : Model) (s : Int × Int) :
    (try_place_house m s).houses.length ≤ m.houses.length + 1 := by
  unfold try_place_house
  dsimp only
  split
  · exact Nat.le_refl _
  · exact Nat.le_succ _

theorem place_hospitals_count :
    ∀ (samples : List (Int × Int)) (m m1 : Model),
      (m.hospitals.length : Int) ≤ m.num_hospitals →
      place_hospitals m samples = some m1 →
      (m1.hospitals.length : Int) = m1.num_hospitals := by
  intro samples
  induction samples with
  | nil =>
    intro m m1 hle h
    unfold place_hospitals at h
    split at h
    · exact Option.noConfusion h
    · cases Option.some.inj h
      omega
  | cons s rest ih =>
    intro m m1 hle h
    unfold place_hospitals at h
    split at h
    case isTrue hguard =>
      have hlen := try_place_hospital_len m s
      have hnum : (try_place_hospital m s).num_hospitals = m.num_hospitals :=
        (try_place_hospital_fields m s).2.2.1
      refine ih (try_place_hospital m s) m1 ?_ h
      rw [hnum]
      omega
    case isFalse hguard =>
      cases Option.some.inj h
      omega

theorem place_houses_count :
    ∀ (samples : List (Int × Int)) (m m1 : Model),
      (m.houses.length : Int) ≤ m.num_houses →
      place_houses m samples = some m1 →
      (m1.houses.length : Int) = m1.num_houses := by
  intro samples
  induction samples with
  | nil =>
    intro m m1 hle h
    unfold place_houses at h
    split at h
    · exact Option.noConfusion h
    · cases Option.some.inj h
      omega
  | cons s rest ih =>
    intro m m1 hle h
    unfold place_houses at h
    split at h
    case isTrue hguard =>
      have hlen := try_place_house_len m s
      have hnum : (try_place_house m s).num_houses = m.num_houses :=
        (try_place_house_fields m s).2.2.2.1
      refine ih (try_place_house m s) m1 ?_ h
      rw [hnum]
      omega
    case isFalse hguard =>
      cases Option.some.inj h
      omega

theorem init_counts {rows cols nh nhs : Int} {s1 s2 : List (Int × Int)} {m1 : Model}
    (hnh : 0 ≤ nh) (hnhs : 0 ≤ nhs)
    (h : initialize_random_positions (mkModel rows cols nh nhs) s1 s2 = some m1) :
    (m1.hospitals.length : Int) = nh ∧ (m1.houses.length : Int) = nhs := by
  unfold initialize_random_positions at h
  rcases hm : place_hospitals (mkModel rows cols nh nhs) s1 with _ | mh
  · rw [hm] at h; exact Option.noConfusion h
  · rw [hm] at h
    have hfieldsH := place_hospitals_fields s1 _ mh hm
    have hfields2 := place_houses_fields s2 mh m1 h
    have hcount1 : (mh.hospitals.length : Int) = mh.num_hospitals :=
      place_hospitals_count s1 _ mh (by simpa [mkModel] using hnh) hm
    have hnumh : mh.num_hospitals = nh := hfieldsH.2.2.1
    have hhosp : m1.hospitals = mh.hospitals := hfields2.2.2.2.2.2.2
    have hhouses0 : mh.houses = [] := hfieldsH.2.2.2.2.2.2
    have hcount2 : (m1.houses.length : Int) = m1.num_houses :=
      place_houses_count s2 mh m1
        (by rw [hhouses0, hfieldsH.2.2.2.1]; simpa [mkModel] using hnhs) h
    have hnumhs : m1.num_houses = nhs := by
      rw [hfields2.2.2.2.1, hfieldsH.2.2.2.1]
      rfl
    refine ⟨?_, by rw [hcount2, hnumhs]⟩
    rw [hhosp, hcount1, hnumh]

theorem applyCalls_preserves :
    ∀ (k : Nat) (fuels : Nat → Nat) (m : Model), WF m →
      WF (applyCalls fuels k m) ∧ StepOk m (applyCalls fuels k m) := by
  intro k
  induction k with
  | zero => intro fuels m hWF; exact ⟨hWF, stepOk_rfl m⟩
  | succ kk ih =>
    intro fuels m hWF
    have hred : applyCalls fuels (Nat.succ kk) m =
        applyCalls fuels kk (optimize_distribution m (fuels kk)) := rfl
    obtain ⟨h1, h2, _⟩ := optimizeAux_preserves (fuels kk) m hWF
    obtain ⟨g1, g2⟩ := ih fuels (optimize_distribution m (fuels kk)) h1
    rw [hred]
    exact ⟨g1, StepOk.comp h2 g2⟩

/-! ### The reserved constant plays no role -/

theorem withMAX_score (m : Model) (v : Nat) :
    calculate_score (withMAX m v) = calculate_score m := rfl

theorem withMAX_scan (m : Model) (v : Nat) (old : Coordinate) (bs : Option Nat)
    (imp : Bool) :
    scanHospital (withMAX m v) old bs imp =
      (withMAX (scanHospital m old bs imp).1 v, (scanHospital m old bs imp).2) := by
  have hfold : offsets.foldl (tryOffset (withMAX m v) old) (bs, none, imp) =
      offsets.foldl (tryOffset m old) (bs, none, imp) := rfl
  unfold scanHospital
  dsimp only
  rw [hfold]
  rcases hacc : (offsets.foldl (tryOffset m old) (bs, none, imp)).2.1 with _ | p
  · rfl
  · rfl

theorem withMAX_sweepFold (v : Nat) :
    ∀ (l : List Coordinate) (st : Model × Option Nat × Bool),
      l.foldl (fun s h => scanHospital s.1 h s.2.1 s.2.2) (withMAX st.1 v, st.2) =
        (withMAX (l.foldl (fun s h => scanHospital s.1 h s.2.1 s.2.2) st).1 v,
         (l.foldl (fun s h => scanHospital s.1 h s.2.1 s.2.2) st).2) := by
  intro l
  induction l with
  | nil => intro st; rfl
  | cons hd t ih =>
    intro st
    rw [List.foldl_cons, List.foldl_cons]
    have hstep : scanHospital (withMAX st.1 v, st.2).1 hd (withMAX st.1 v, st.2).2.1
        (withMAX st.1 v, st.2).2.2 =
        (withMAX (scanHospital st.1 hd st.2.1 st.2.2).1 v,
         (scanHospital st.1 hd st.2.1 st.2.2).2) := by
      exact withMAX_scan st.1 v hd st.2.1 st.2.2
    rw [hstep]
    exact ih (scanHospital st.1 hd st.2.1 st.2.2)

theorem withMAX_sweep (m : Model) (v : Nat) (bs : Option Nat) :
    sweep (withMAX m v) bs = (withMAX (sweep m bs).1 v, (sweep m bs).2) := by
  unfold sweep
  exact withMAX_sweepFold v m.hospitals (m, bs, false)

theorem withMAX_optimizeAux (v : Nat) :
    ∀ (fuel : Nat) (m : Model) (bs : Option Nat),
      optimizeAux fuel (withMAX m v) bs = withMAX (optimizeAux fuel m bs) v := by
  intro fuel
  induction fuel with
  | zero => intro m bs; rfl
  | succ n ih =>
    intro m bs
    rw [optimizeAux_succ, optimizeAux_succ, withMAX_sweep]
    cases hb : (sweep m bs).2.2 with
    | false => simp [hb]
    | true => simp [hb, ih]

theorem withMAX_optimize (m : Model) (v : Nat) (fuel : Nat) :
    optimize_distribution (withMAX m v) fuel =
      withMAX (optimize_distribution m fuel) v := by
  unfold optimize_distribution
  rw [withMAX_score]
  exact withMAX_optimizeAux v fuel m (calculate_score m)

/-! ### Pairwise spacing as a statement about all pairs -/

theorem spaced_pairs {l : List Coordinate} {d : Nat}
    (h : l.Pairwise fun a b => d ≤ a.distance_to b) :
    ∀ a ∈ l, ∀ b ∈ l, a ≠ b → d ≤ a.distance_to b := by
  induction l with
  | nil => intro a ha; cases ha
  | cons hd t ih =>
    obtain ⟨hhd, ht⟩ := List.pairwise_cons.mp h
    intro a ha b hb hne
    rcases List.mem_cons.mp ha with rfl | hat
    · rcases List.mem_cons.mp hb with rfl | hbt
      · exact absurd rfl hne
      · exact hhd b hbt
    · rcases List.mem_cons.mp hb with rfl | hbt
      · rw [distance_comm]
        exact hhd a hat
      · exact ih ht a hat b hbt hne

theorem scenarioA_init :
    initialize_random_positions (mkModel 5 5 1 1) [(0, 0)] [(4, 4)] = some scenarioA :=
  rfl

theorem scenarioA_WF : WF scenarioA := init_WF scenarioA_init

/-! ### The claims -/

/-- C1: for every reachable model state (after `initialize_random_positions`
and after any number of `optimize_distribution` calls), every pair of
distinct hospitals has Manhattan distance at least 3
(`MIN_HOSPITAL_DISTANCE`), and the optimizer never commits a relocation
that brings two hospitals closer than 3: the model after any single
hospital scan-and-commit step is again spaced. -/
theorem hospital_spacing_invariant :
    (∀ (rows cols nh nhs : Int) (s1 s2 : List (Int × Int)) (m1 : Model)
       (fuels : Nat → Nat) (k : Nat),
       initialize_random_positions (mkModel rows cols nh nhs) s1 s2 = some m1 →
       ∀ a ∈ (applyCalls fuels k m1).hospitals,
         ∀ b ∈ (applyCalls fuels k m1).hospitals,
           a ≠ b → 3 ≤ a.distance_to b) ∧
    (∀ (m : Model) (old : Coordinate) (imp : Bool), WF m →
       m.MIN_HOSPITAL_DISTANCE = 3 → old ∈ m.hospitals →
       ∀ a ∈ (scanHospital m old (calculate_score m) imp).1.hospitals,
         ∀ b ∈ (scanHospital m old (calculate_score m) imp).1.hospitals,
           a ≠ b → 3 ≤ a.distance_to b) := by
  constructor
  · intro rows cols nh nhs s1 s2 m1 fuels k h
    have hWF1 := init_WF h
    have hMIN1 := init_MIN h
    obtain ⟨hWFk, hStepk⟩ := applyCalls_preserves k fuels m1 hWF1
    have hsp := hWFk.spaced
    have hMINk : (applyCalls fuels k m1).MIN_HOSPITAL_DISTANCE = 3 := by
      rw [hStepk.min_eq, hMIN1]
    rw [hMINk] at hsp
    exact spaced_pairs hsp
  · intro m old imp hWF hMIN hold
    rcases scanHospital_spec old imp hWF hold with heq | ⟨p, hv, hne, hx, hy, hlt, heq⟩
    · rw [heq]
      have hsp := hWF.spaced
      rw [hMIN] at hsp
      exact spaced_pairs hsp
    · rw [heq]
      have hWF2 := commit_WF hWF hold hv
      have hsp := hWF2.spaced
      have hMIN2 : (commitMove m old p).MIN_HOSPITAL_DISTANCE = 3 := hMIN
      rw [hMIN2] at hsp
      exact spaced_pairs hsp

theorem hospital_spacing_invariant_witness :
    initialize_random_positions (mkModel 5 5 1 1) [(0, 0)] [(4, 4)] = some scenarioA ∧
    (∀ a ∈ (applyCalls (fun _ => 9) 1 scenarioA).hospitals,
      ∀ b ∈ (applyCalls (fun _ => 9) 1 scenarioA).hospitals,
        a ≠ b → 3 ≤ a.distance_to b) :=
  ⟨rfl, hospital_spacing_invariant.1 5 5 1 1 [(0, 0)] [(4, 4)] scenarioA
    (fun _ => 9) 1 rfl⟩

/-- C2: for every initialized model (and any number of earlier optimizer
calls), the score after one `optimize_distribution` call is at most the
score before the call: the pass never increases the total
house-to-nearest-hospital distance. -/
theorem optimizer_score_nonincrease :
    ∀ (rows cols nh nhs : Int) (s1 s2 : List (Int × Int)) (m1 : Model)
      (fuels : Nat → Nat) (k fuel : Nat),
      initialize_random_positions (mkModel rows cols nh nhs) s1 s2 = some m1 →
      infLe (calculate_score (optimize_distribution (applyCalls fuels k m1) fuel))
        (calculate_score (applyCalls fuels k m1)) = true := by
  intro rows cols nh nhs s1 s2 m1 fuels k fuel h
  obtain ⟨hWFk, _⟩ := applyCalls_preserves k fuels m1 (init_WF h)
  exact (optimizeAux_preserves fuel (applyCalls fuels k m1) hWFk).2.2

theorem optimizer_score_nonincrease_witness :
    initialize_random_positions (mkModel 5 5 1 1) [(0, 0)] [(4, 4)] = some scenarioA ∧
    infLe (calculate_score (optimize_distribution (applyCalls (fun _ => 9) 0 scenarioA) 9))
      (calculate_score (applyCalls (fun _ => 9) 0 scenarioA)) = true :=
  ⟨rfl, optimizer_score_nonincrease 5 5 1 1 [(0, 0)] [(4, 4)] scenarioA
    (fun _ => 9) 0 9 rfl⟩

/-- C3: for every model with a non-empty hospitals set, `_calculate_score`
returns the integer sum, over all houses, of the minimum Manhattan
distance from that house to any hospital; on the 5×5 grid with the single
hospital at (0, 0) and the single house at (4, 4) the score is 8, and with
zero houses the score is 0. -/
theorem score_spec_correct :
    (∀ m : Model, m.hospitals ≠ [] → calculate_score m = some (scoreSpec m)) ∧
    calculate_score scenarioA = some 8 ∧ calculate_score scenarioB = some 0 :=
  ⟨fun _ h => calculate_score_eq_some_scoreSpec h, by decide, by decide⟩

theorem score_spec_correct_witness :
    scenarioA.hospitals ≠ [] ∧
    calculate_score scenarioA = some (scoreSpec scenarioA) :=
  ⟨by decide, score_spec_correct.1 scenarioA (by decide)⟩

/-- C4: after `initialize_random_positions` the numbers of hospitals and
houses equal `num_hospitals` and `num_houses`, and they are unchanged by
every subsequent `optimize_distribution` call; the optimizer also never
modifies the houses set or the grid value of any house cell. -/
theorem count_conservation :
    ∀ (rows cols nh nhs : Int) (s1 s2 : List (Int × Int)) (m1 : Model)
      (fuels : Nat → Nat) (k : Nat),
      0 ≤ nh → 0 ≤ nhs →
      initialize_random_positions (mkModel rows cols nh nhs) s1 s2 = some m1 →
      ((applyCalls fuels k m1).hospitals.length : Int) = nh ∧
      ((applyCalls fuels k m1).houses.length : Int) = nhs ∧
      (applyCalls fuels k m1).houses = m1.houses ∧
      (∀ c ∈ m1.houses, (applyCalls fuels k m1).grid c.x c.y = m1.grid c.x c.y) := by
  intro rows cols nh nhs s1 s2 m1 fuels k hnh hnhs h
  obtain ⟨hc1, hc2⟩ := init_counts hnh hnhs h
  obtain ⟨hWFk, hStepk⟩ := applyCalls_preserves k fuels m1 (init_WF h)
  refine ⟨?_, ?_, hStepk.houses_eq, hStepk.house_cells⟩
  · rw [hStepk.hlen_eq]
    exact hc1
  · rw [hStepk.houses_eq]
    exact hc2

theorem count_conservation_witness :
    (0 : Int) ≤ 1 ∧
    initialize_random_positions (mkModel 5 5 1 1) [(0, 0)] [(4, 4)] = some scenarioA ∧
    ((applyCalls (fun _ => 9) 1 scenarioA).hospitals.length : Int) = 1 ∧
    ((applyCalls (fun _ => 9) 1 scenarioA).houses.length : Int) = 1 :=
  ⟨by decide, rfl,
    (count_conservation 5 5 1 1 [(0, 0)] [(4, 4)] scenarioA (fun _ => 9) 1
      (by decide) (by decide) rfl).1,
    (count_conservation 5 5 1 1 [(0, 0)] [(4, 4)] scenarioA (fun _ => 9) 1
      (by decide) (by decide) rfl).2.1⟩

/-- C5: for every initialized model a single `optimize_distribution` call
terminates: the score is a non-negative integer that strictly decreases on
each improving sweep, so `scoreFuel m1` (initial score plus one) sweeps
always suffice — with at least that much fuel the result no longer depends
on the fuel, and the final state's next sweep makes zero relocations. -/
theorem optimizer_terminates :
    ∀ (rows cols nh nhs : Int) (s1 s2 : List (Int × Int)) (m1 : Model) (fuel : Nat),
      initialize_random_positions (mkModel rows cols nh nhs) s1 s2 = some m1 →
      scoreFuel m1 ≤ fuel →
      optimize_distribution m1 fuel = optimize_distribution m1 (scoreFuel m1) ∧
      (sweep (optimize_distribution m1 fuel)
        (calculate_score (optimize_distribution m1 fuel))).2.2 = false := by
  intro rows cols nh nhs s1 s2 m1 fuel h hf
  obtain ⟨hfix, hconv⟩ := optimizeAux_fix fuel m1 (init_WF h) hf
  exact ⟨(hfix (scoreFuel m1) (Nat.le_refl _)).symm, hconv⟩

theorem optimizer_terminates_witness :
    initialize_random_positions (mkModel 5 5 1 1) [(0, 0)] [(4, 4)] = some scenarioA ∧
    scoreFuel scenarioA ≤ 9 ∧
    optimize_distribution scenarioA 9 = optimize_distribution scenarioA (scoreFuel scenarioA) ∧
    (sweep (optimize_distribution scenarioA 9)
      (calculate_score (optimize_distribution scenarioA 9))).2.2 = false :=
  ⟨rfl, by decide,
    (optimizer_terminates 5 5 1 1 [(0, 0)] [(4, 4)] scenarioA 9 rfl (by decide)).1,
    (optimizer_terminates 5 5 1 1 [(0, 0)] [(4, 4)] scenarioA 9 rfl (by decide)).2⟩

/-- C6: a state whose sweep commits zero relocations is a fixpoint: a
further `optimize_distribution` call leaves the model (hospitals, grid,
houses, score) exactly unchanged and again commits zero relocations. -/
theorem convergence_fixpoint :
    ∀ (m : Model) (fuel : Nat),
      (sweep m (calculate_score m)).2.2 = false →
      optimize_distribution m fuel = m ∧
      (sweep (optimize_distribution m fuel)
        (calculate_score (optimize_distribution m fuel))).2.2 = false := by
  intro m fuel h
  have hsw := sweep_false_fix h
  have hfix : ∀ f : Nat, optimizeAux f m (calculate_score m) = m := by
    intro f
    cases f with
    | zero => rfl
    | succ n =>
      rw [optimizeAux_succ, hsw]
      rfl
  have he : optimize_distribution m fuel = m := hfix fuel
  refine ⟨he, ?_⟩
  rw [he]
  exact h

theorem convergence_fixpoint_witness :
    (sweep scenarioConv (calculate_score scenarioConv)).2.2 = false ∧
    optimize_distribution scenarioConv 5 = scenarioConv :=
  ⟨by decide, (convergence_fixpoint scenarioConv 5 (by decide)).1⟩

/-- C7: on a configuration whose grid cannot hold the requested number of
hospitals under `MIN_HOSPITAL_DISTANCE` (here a 1×1 grid with
`num_hospitals = 2`), the placement loop of `initialize_random_positions`
never completes, whatever in-bounds cells the random sampler produces: the
reference code raises no `PlacementInfeasible`/`InvalidConfiguration`
error, it simply keeps looping. -/
theorem infeasible_init_never_completes :
    ∀ (samples houseSamples : List (Int × Int)),
      (∀ s ∈ samples, 0 ≤ s.1 ∧ s.1 < 1 ∧ 0 ≤ s.2 ∧ s.2 < 1) →
      place_hospitals (mkModel 1 1 2 0) samples = none ∧
      initialize_random_positions (mkModel 1 1 2 0) samples houseSamples = none := by
  have key : ∀ (samples : List (Int × Int)) (m : Model),
      m.num_hospitals = 2 →
      (m.hospitals = [] ∨ (m.hospitals.length = 1 ∧ m.grid 0 0 ≠ 0)) →
      (∀ s ∈ samples, 0 ≤ s.1 ∧ s.1 < 1 ∧ 0 ≤ s.2 ∧ s.2 < 1) →
      place_hospitals m samples = none := by
    intro samples
    induction samples with
    | nil =>
      intro m hnum hQ _
      have hguard : (m.hospitals.length : Int) < m.num_hospitals := by
        rcases hQ with hnil | ⟨hlen, _⟩
        · rw [hnil, hnum]; decide
        · rw [hlen, hnum]; decide
      unfold place_hospitals
      rw [if_pos hguard]
    | cons s rest ih =>
      intro m hnum hQ hbnd
      have hs := hbnd s (List.mem_cons_self s rest)
      have hs1 : s.1 = 0 := by omega
      have hs2 : s.2 = 0 := by omega
      have hguard : (m.hospitals.length : Int) < m.num_hospitals := by
        rcases hQ with hnil | ⟨hlen, _⟩
        · rw [hnil, hnum]; decide
        · rw [hlen, hnum]; decide
      unfold place_hospitals
      rw [if_pos hguard]
      apply ih (try_place_hospital m s)
      · rw [(try_place_hospital_fields m s).2.2.1, hnum]
      · unfold try_place_hospital
        dsimp only
        split
        case isTrue hv =>
          rcases hQ with hnil | ⟨hlen, hgrid⟩
          · right
            constructor
            · show ((⟨s.1, s.2⟩ : Coordinate) :: m.hospitals).length = 1
              rw [hnil]
              rfl
            · show setCell m.grid ⟨s.1, s.2⟩ 2 0 0 ≠ 0
              unfold setCell
              rw [hs1, hs2]
              simp
          · exfalso
            have hg := ((valid_iff m ⟨s.1, s.2⟩).mp hv).1
            rw [hs1, hs2] at hg
            exact hgrid hg
        case isFalse => exact hQ
      · exact fun t ht => hbnd t (List.mem_cons_of_mem s ht)
  intro samples houseSamples hbnd
  have h1 : place_hospitals (mkModel 1 1 2 0) samples = none :=
    key samples (mkModel 1 1 2 0) rfl (Or.inl rfl) hbnd
  refine ⟨h1, ?_⟩
  unfold initialize_random_positions
  rw [h1]

theorem infeasible_init_never_completes_witness :
    (∀ s ∈ [((0 : Int), (0 : Int)), (0, 0)], 0 ≤ s.1 ∧ s.1 < 1 ∧ 0 ≤ s.2 ∧ s.2 < 1) ∧
    place_hospitals (mkModel 1 1 2 0) [(0, 0), (0, 0)] = none :=
  ⟨by decide,
    (infeasible_init_never_completes [(0, 0), (0, 0)] [] (by decide)).1⟩

/-- C8 (counterexample): the Python `Coordinate` class defines neither
`__eq__` nor `__hash__`, so two `Coordinate` objects with equal row and
column do not compare equal, do not hash equal, and adding both to a set
yields two members — refuting by-value equality at the concrete pair of
objects `Coordinate(4, 4)` created twice. -/
theorem coordinate_equality_counterexample :
    (PyCoordinate.mk 0 4 4).x = (PyCoordinate.mk 1 4 4).x ∧
    (PyCoordinate.mk 0 4 4).y = (PyCoordinate.mk 1 4 4).y ∧
    pyEq (PyCoordinate.mk 0 4 4) (PyCoordinate.mk 1 4 4) = false ∧
    pyHash (PyCoordinate.mk 0 4 4) ≠ pyHash (PyCoordinate.mk 1 4 4) ∧
    (pySetAdd (pySetAdd [] (PyCoordinate.mk 0 4 4)) (PyCoordinate.mk 1 4 4)).length = 2 := by
  decide

/-- C8 (amended): `Coordinate` equality and hashing are by object
identity, not by value: two `Coordinate` objects compare equal exactly
when they are the same object, equal objects hash equal, two distinct
objects are two distinct set members even with equal row and column, and
adding the same object twice yields one member. -/
theorem coordinate_identity_semantics :
    (∀ a b : PyCoordinate, pyEq a b = true ↔ a.oid = b.oid) ∧
    (∀ a b : PyCoordinate, pyEq a b = true → pyHash a = pyHash b) ∧
    (∀ a b : PyCoordinate, a.oid ≠ b.oid →
      (pySetAdd (pySetAdd [] a) b).length = 2) ∧
    (∀ a : PyCoordinate, (pySetAdd (pySetAdd [] a) a).length = 1) := by
  refine ⟨?_, ?_, ?_, ?_⟩
  · intro a b
    simp [pyEq]
  · intro a b h
    simp only [pyEq, decide_eq_true_eq] at h
    simp [pyHash, h]
  · intro a b h
    simp [pySetAdd, pyEq, h]
  · intro a
    simp [pySetAdd, pyEq]

theorem coordinate_identity_semantics_witness :
    (PyCoordinate.mk 0 0 0).oid ≠ (PyCoordinate.mk 1 0 0).oid ∧
    (pySetAdd (pySetAdd [] (PyCoordinate.mk 0 0 0)) (PyCoordinate.mk 1 0 0)).length = 2 :=
  ⟨by decide, coordinate_identity_semantics.2.2.1 _ _ (by decide)⟩

/-- C9: the value of `MAX_HOUSE_HOSPITAL_DISTANCE` does not influence
scoring or optimization: two models identical except for that constant
get the same score, and `optimize_distribution` produces the same final
hospitals set and the same grid. -/
theorem unused_constant_noninterference :
    ∀ (m1 m2 : Model) (fuel : Nat),
      m1.rows = m2.rows → m1.cols = m2.cols →
      m1.num_hospitals = m2.num_hospitals → m1.num_houses = m2.num_houses →
      m1.grid = m2.grid → m1.hospitals = m2.hospitals → m1.houses = m2.houses →
      m1.MIN_HOSPITAL_DISTANCE = m2.MIN_HOSPITAL_DISTANCE →
      calculate_score m1 = calculate_score m2 ∧
      (optimize_distribution m1 fuel).hospitals =
        (optimize_distribution m2 fuel).hospitals ∧
      (optimize_distribution m1 fuel).grid = (optimize_distribution m2 fuel).grid := by
  intro m1 m2 fuel h1 h2 h3 h4 h5 h6 h7 h8
  have hm : m1 = withMAX m2 m1.MAX_HOUSE_HOSPITAL_DISTANCE := by
    cases m1
    cases m2
    simp_all [withMAX]
  rw [hm]
  refine ⟨?_, ?_, ?_⟩
  · rw [withMAX_score]
  · rw [withMAX_optimize]
    rfl
  · rw [withMAX_optimize]
    rfl

theorem unused_constant_noninterference_witness :
    calculate_score (withMAX (mkModel 2 2 1 0) 9) = calculate_score (mkModel 2 2 1 0) ∧
    (optimize_distribution (withMAX (mkModel 2 2 1 0) 9) 3).hospitals =
      (optimize_distribution (mkModel 2 2 1 0) 3).hospitals ∧
    (optimize_distribution (withMAX (mkModel 2 2 1 0) 9) 3).grid =
      (optimize_distribution (mkModel 2 2 1 0) 3).grid :=
  unused_constant_noninterference (withMAX (mkModel 2 2 1 0) 9) (mkModel 2 2 1 0) 3
    rfl rfl rfl rfl rfl rfl rfl rfl

/-- C10: in a well-formed state with best score equal to the current
score (the situation at every hospital scan inside
`optimize_distribution`), the zero-offset candidate can never win, so the
scan either commits no move or commits a relocation to a position that
differs from the hospital's current coordinate by exactly one step in at
least one axis. -/
theorem no_self_relocation :
    ∀ (m : Model) (old : Coordinate) (imp : Bool), WF m → old ∈ m.hospitals →
      (scanHospital m old (calculate_score m) imp).1 = m ∨
      ∃ p, p ≠ old ∧ (p.x - old.x).natAbs ≤ 1 ∧ (p.y - old.y).natAbs ≤ 1 ∧
        1 ≤ p.distance_to old ∧
        (scanHospital m old (calculate_score m) imp).1 = commitMove m old p := by
  intro m old imp hWF hold
  rcases scanHospital_spec old imp hWF hold with heq | ⟨p, hv, hne, hx, hy, hlt, heq⟩
  · left
    rw [heq]
  · right
    exact ⟨p, hne, hx, hy, distance_pos_of_ne hne, by rw [heq]⟩

theorem no_self_relocation_witness :
    (scanHospital scenarioA ⟨0, 0⟩ (calculate_score scenarioA) false).1 = scenarioA ∨
    ∃ p, p ≠ (⟨0, 0⟩ : Coordinate) ∧ (p.x - 0).natAbs ≤ 1 ∧ (p.y - 0).natAbs ≤ 1 ∧
      1 ≤ p.distance_to ⟨0, 0⟩ ∧
      (scanHospital scenarioA ⟨0, 0⟩ (calculate_score scenarioA) false).1 =
        commitMove scenarioA ⟨0, 0⟩ p :=
  no_self_relocation scenarioA ⟨0, 0⟩ false scenarioA_WF (by decide)
